import Mathlib

/-!
Verification of the netx networking toolkit against its design specification.

The Go sources are shallowly embedded: byte streams become `List Nat`
(one `Nat` per byte), connections become explicit record states, and each
Go method becomes a Lean function mirroring its control flow.  I/O against
the peer is modelled by a deterministic stream: a read of `k` bytes
delivers `min k remaining` bytes, which is one faithful instance of the
Go `io.Reader` contract.
-/

/-! ### Protocol detection multiplexer (teeReader / protoConn, guessProtocol) -/

/-- Embedding of `teeReader`: `r` is the not-yet-consumed tail of the
underlying connection's byte stream, `b` the captured bytes, `i` the
replay index. -/
structure TeeReader where
  r : List Nat
  b : List Nat
  i : Nat
deriving Repr, DecidableEq

/-- `teeReader.reset`: rewind the replay index without dropping captures. -/
def TeeReader.reset (t : TeeReader) : TeeReader :=
  { t with i := 0 }

/-- `teeReader.Read` for a request of `k` bytes: serve from the capture
buffer while `i < len(b)`, otherwise read from the connection, append the
bytes to the capture buffer and advance `i`. -/
def TeeReader.read (t : TeeReader) (k : Nat) : List Nat × TeeReader :=
  if t.i < t.b.length then
    let n1 := t.b.length - t.i
    let n2 := min k n1
    ((t.b.drop t.i).take n2, { t with i := t.i + n2 })
  else
    let chunk := t.r.take k
    (chunk, { r := t.r.drop k, b := t.b ++ chunk, i := t.i + chunk.length })

/-- One step of a protocol probe against the tee: either a `Read` of some
size, or the `reset` the muxer performs between two probes. -/
inductive TeeOp
  | read (k : Nat)
  | reset
deriving Repr, DecidableEq

/-- Run a sequence of probe operations against the tee reader, as the
`CanRead` calls of `guessProtocol` do. -/
def runTee (t : TeeReader) : List TeeOp → TeeReader
  | [] => t
  | TeeOp.read k :: ops => runTee (t.read k).2 ops
  | TeeOp.reset :: ops => runTee t.reset ops

/-- Embedding of `protoConn`: a connection preloaded with `head`, whose
`Read` drains `head` before falling through to the socket stream `conn`. -/
structure ProtoConn where
  head : List Nat
  conn : List Nat
deriving Repr, DecidableEq

/-- `protoConn.Read` for a request of `k` bytes. -/
def ProtoConn.read (c : ProtoConn) (k : Nat) : List Nat × ProtoConn :=
  if c.head.length ≠ 0 then
    let n := min c.head.length k
    (c.head.take n, { c with head := c.head.drop n })
  else
    (c.conn.take k, { c with conn := c.conn.drop k })

/-- Perform a sequence of reads on a `protoConn`, returning the delivered
byte chunks and the remaining state. -/
def ProtoConn.drain (c : ProtoConn) : List Nat → List (List Nat) × ProtoConn
  | [] => ([], c)
  | k :: ks =>
    let p := c.read k
    let q := p.2.drain ks
    (p.1 :: q.1, q.2)

/-- `guessProtocol`: after the probe sequence `ops` ran over a fresh tee on
`stream`, the handler receives `&protoConn{conn, tr.bytes()}` - captured
bytes as `head`, the unconsumed socket stream as `conn`.  The same wrapper
is handed over whether the winning probe was the first or came after failed
probes (and even in the no-match case, before the muxer panics). -/
def guessProtocolConn (stream : List Nat) (ops : List TeeOp) : ProtoConn :=
  let t := runTee (TeeReader.mk stream [] 0) ops
  ProtoConn.mk t.b t.r

theorem runTee_capture_invariant (ops : List TeeOp) :
    ∀ t : TeeReader, (runTee t ops).b ++ (runTee t ops).r = t.b ++ t.r := by
  induction ops with
  | nil => intro t; rfl
  | cons op ops ih =>
    intro t
    cases op with
    | read k =>
      rw [runTee, ih]
      unfold TeeReader.read
      split
      · rfl
      · simp
    | reset =>
      rw [runTee, ih]
      rfl

theorem protoConn_drain_concat (ks : List Nat) :
    ∀ c : ProtoConn,
      (c.drain ks).1.flatten ++ ((c.drain ks).2.head ++ (c.drain ks).2.conn)
        = c.head ++ c.conn := by
  induction ks with
  | nil => intro c; rfl
  | cons k ks ih =>
    intro c
    rw [ProtoConn.drain]
    simp only [List.flatten_cons, List.append_assoc]
    rw [ih]
    unfold ProtoConn.read
    split
    · rw [← List.append_assoc, List.take_append_drop]
    · next h =>
      have : c.head = [] := List.eq_nil_of_length_eq_zero (by omega)
      simp [this]

/-- C1: for every connection served through a protocol multiplexer and any
sequence of probe reads and resets (including failed probes), the
connection handed to the chosen handler yields exactly the original byte
sequence: whatever read pattern `ks` the handler uses, the bytes delivered
so far followed by the bytes still pending always reconstitute `stream`,
with the sniffed bytes replayed first and in order. -/
theorem protoMux_replays_original_stream (stream : List Nat) (ops : List TeeOp) (ks : List Nat) :
    ((guessProtocolConn stream ops).drain ks).1.flatten ++
      (((guessProtocolConn stream ops).drain ks).2.head ++
        ((guessProtocolConn stream ops).drain ks).2.conn) = stream := by
  rw [protoConn_drain_concat]
  show (runTee (TeeReader.mk stream [] 0) ops).b ++ (runTee (TeeReader.mk stream [] 0) ops).r = stream
  rw [runTee_capture_invariant]
  rfl

/-! ### HTTP chunked transfer encoding (chunkWriter) -/

/-- Lowercase hexadecimal digit byte, as `strconv.AppendInt(.., 16)` emits. -/
def hexDigit (n : Nat) : Nat :=
  if n < 10 then 48 + n else 87 + n

/-- Most-significant-first hexadecimal digits of a positive number. -/
def toHexAux : Nat → List Nat → List Nat
  | 0, acc => acc
  | n + 1, acc => toHexAux ((n + 1) / 16) (hexDigit ((n + 1) % 16) :: acc)

/-- Byte rendering of `n` in base 16, as Go `strconv.AppendInt(b, n, 16)`. -/
def toHex (n : Nat) : List Nat :=
  if n = 0 then [48] else toHexAux n []

/-- CR LF. -/
def crlf : List Nat := [13, 10]

/-- The wire form of one non-terminating chunk: hex byte-count, CRLF, the
payload and a closing CRLF - what `chunkWriter.writeChunk` emits. -/
def encodeChunk (payload : List Nat) : List Nat :=
  toHex payload.length ++ crlf ++ payload ++ crlf

/-- The terminating chunk `"0" CRLF CRLF` emitted by `chunkWriter.Close`. -/
def chunkTerminator : List Nat := [48, 13, 10, 13, 10]

/-- Embedding of `chunkWriter`: `buf` models `b[:n]` (the 512-byte
aggregation buffer's occupied part) and `out` the bytes already flushed to
the underlying writer, which is modelled as always succeeding in full. -/
structure ChunkWriter where
  buf : List Nat
  out : List Nat
deriving Repr, DecidableEq

/-- `chunkWriter.writeChunk`: empty chunks are suppressed, otherwise the
length header, payload and CRLF go out. -/
def ChunkWriter.writeChunk (cw : ChunkWriter) (b : List Nat) : ChunkWriter :=
  if b.length = 0 then cw
  else { cw with out := cw.out ++ encodeChunk b }

/-- `chunkWriter.Flush`: write the buffered bytes as one chunk and empty
the buffer (the underlying writer accepts everything, so the partial-write
compaction branch of the source is the identity here). -/
def ChunkWriter.flush (cw : ChunkWriter) : ChunkWriter :=
  { cw.writeChunk cw.buf with buf := [] }

/-- `chunkWriter.Write`: fill the 512-byte buffer, bypassing it when it is
empty and the input alone reaches its capacity; flush whenever input
remains after the buffer filled up. -/
def ChunkWriter.write (cw : ChunkWriter) (b : List Nat) : ChunkWriter :=
  if b.length = 0 then cw
  else if b.length ≥ 512 - cw.buf.length ∧ cw.buf.length = 0 then cw.writeChunk b
  else if (b.drop (min b.length (512 - cw.buf.length))).length = 0 then
    { cw with buf := cw.buf ++ b.take (min b.length (512 - cw.buf.length)) }
  else
    ChunkWriter.write
      ({ cw with buf := cw.buf ++ b.take (min b.length (512 - cw.buf.length)) } : ChunkWriter).flush
      (b.drop (min b.length (512 - cw.buf.length)))
termination_by 2 * b.length + (if cw.buf.length = 0 then 0 else 1)
decreasing_by
  have hd : (List.drop (min b.length (512 - cw.buf.length)) b).length
      = b.length - min b.length (512 - cw.buf.length) := by
    simp
  simp only [ChunkWriter.flush, List.length_nil, reduceIte]
  rcases Nat.eq_zero_or_pos cw.buf.length with h | h
  · rw [if_pos h]
    omega
  · rw [if_neg (Nat.pos_iff_ne_zero.mp h)]
    omega

/-- One call a request handler makes against the chunked body writer. -/
inductive ChunkOp
  | write (b : List Nat)
  | flush
deriving Repr, DecidableEq

/-- Run a sequence of handler calls against the chunk writer. -/
def runChunkOps (cw : ChunkWriter) : List ChunkOp → ChunkWriter
  | [] => cw
  | ChunkOp.write b :: ops => runChunkOps (cw.write b) ops
  | ChunkOp.flush :: ops => runChunkOps cw.flush ops

/-- `chunkWriter.Close`: flush, then emit the zero-length terminator. -/
def ChunkWriter.close (cw : ChunkWriter) : ChunkWriter :=
  let cw' := cw.flush
  { cw' with out := cw'.out ++ chunkTerminator }

/-- A byte string that is a concatenation of encodings of non-empty
chunks: the repeated part of the chunked wire grammar. -/
def ChunkStream (l : List Nat) : Prop :=
  ∃ cs : List (List Nat), (∀ c ∈ cs, c ≠ []) ∧ l = (cs.map encodeChunk).flatten

theorem chunkStream_nil : ChunkStream [] :=
  ⟨[], by simp, rfl⟩

theorem chunkStream_append {a b : List Nat} (ha : ChunkStream a) (hb : ChunkStream b) :
    ChunkStream (a ++ b) := by
  obtain ⟨cs₁, h₁, e₁⟩ := ha
  obtain ⟨cs₂, h₂, e₂⟩ := hb
  refine ⟨cs₁ ++ cs₂, ?_, ?_⟩
  · intro c hc
    rcases List.mem_append.mp hc with h | h
    · exact h₁ c h
    · exact h₂ c h
  · simp [e₁, e₂]

theorem chunkStream_encode {b : List Nat} (h : b ≠ []) : ChunkStream (encodeChunk b) := by
  exact ⟨[b], by simpa using h, by simp⟩

theorem writeChunk_out_delta (cw : ChunkWriter) (b : List Nat) :
    ∃ d, ChunkStream d ∧ (cw.writeChunk b).out = cw.out ++ d := by
  unfold ChunkWriter.writeChunk
  split
  · exact ⟨[], chunkStream_nil, by simp⟩
  · next h =>
    exact ⟨encodeChunk b, chunkStream_encode (fun hb => h (by simp [hb])), rfl⟩

theorem flush_out_delta (cw : ChunkWriter) :
    ∃ d, ChunkStream d ∧ cw.flush.out = cw.out ++ d := by
  unfold ChunkWriter.flush
  obtain ⟨d, hd, he⟩ := writeChunk_out_delta cw cw.buf
  exact ⟨d, hd, he⟩

theorem write_out_delta (n : Nat) :
    ∀ (cw : ChunkWriter) (b : List Nat),
      2 * b.length + (if cw.buf.length = 0 then 0 else 1) ≤ n →
      ∃ d, ChunkStream d ∧ (cw.write b).out = cw.out ++ d := by
  induction n using Nat.strong_induction_on with
  | _ n ih =>
    intro cw b hn
    rw [ChunkWriter.write]
    split
    · exact ⟨[], chunkStream_nil, by simp⟩
    · split
      · exact writeChunk_out_delta cw b
      · split
        · exact ⟨[], chunkStream_nil, by simp⟩
        · next h1 h2 h3 =>
          set cw' : ChunkWriter :=
            { cw with buf := cw.buf ++ b.take (min b.length (512 - cw.buf.length)) } with hcw'
          have hflushbuf : cw'.flush.buf = [] := rfl
          have hdrop : (List.drop (min b.length (512 - cw.buf.length)) b).length
              = b.length - min b.length (512 - cw.buf.length) := by simp
          have hmeas : 2 * (List.drop (min b.length (512 - cw.buf.length)) b).length
              + (if cw'.flush.buf.length = 0 then 0 else 1) < n := by
            rw [hflushbuf, hdrop]
            simp only [List.length_nil, reduceIte]
            rcases Nat.eq_zero_or_pos cw.buf.length with h | h
            · rw [if_pos h] at hn
              rw [hdrop] at h3
              exfalso
              exact h2 ⟨by omega, h⟩
            · rw [if_neg (Nat.pos_iff_ne_zero.mp h)] at hn
              rw [hdrop] at h3
              omega
          obtain ⟨d, hd, he⟩ := ih _ hmeas cw'.flush (b.drop (min b.length (512 - cw.buf.length)))
            (le_refl _)
          obtain ⟨d₂, hd₂, he₂⟩ := flush_out_delta cw'
          refine ⟨d₂ ++ d, chunkStream_append hd₂ hd, ?_⟩
          rw [he, he₂]
          have hout : cw'.out = cw.out := rfl
          rw [hout, List.append_assoc]

/-- Run handler calls, then `Close`, starting from a fresh chunk writer. -/
def chunkSession (ops : List ChunkOp) : ChunkWriter :=
  (runChunkOps (ChunkWriter.mk [] []) ops).close

theorem runChunkOps_out_delta (ops : List ChunkOp) :
    ∀ cw : ChunkWriter, ∃ d, ChunkStream d ∧ (runChunkOps cw ops).out = cw.out ++ d := by
  induction ops with
  | nil => intro cw; exact ⟨[], chunkStream_nil, by simp [runChunkOps]⟩
  | cons op ops ih =>
    intro cw
    cases op with
    | write b =>
      obtain ⟨d₁, hd₁, he₁⟩ := write_out_delta
        (2 * b.length + (if cw.buf.length = 0 then 0 else 1)) cw b (le_refl _)
      obtain ⟨d₂, hd₂, he₂⟩ := ih (cw.write b)
      exact ⟨d₁ ++ d₂, chunkStream_append hd₁ hd₂, by rw [runChunkOps, he₂, he₁, List.append_assoc]⟩
    | flush =>
      obtain ⟨d₁, hd₁, he₁⟩ := flush_out_delta cw
      obtain ⟨d₂, hd₂, he₂⟩ := ih cw.flush
      exact ⟨d₁ ++ d₂, chunkStream_append hd₁ hd₂, by rw [runChunkOps, he₂, he₁, List.append_assoc]⟩

/-- C2: every chunked response body session - any sequence of handler
`Write`/`Flush` calls followed by the `Close` at end of request - puts on
the wire exactly a concatenation of chunks of the form hex-length CRLF
payload CRLF with every payload non-empty (empty flushes are suppressed),
followed by the terminator `"0" CRLF CRLF`. -/
theorem chunked_wire_format (ops : List ChunkOp) :
    ∃ cs : List (List Nat), (∀ c ∈ cs, c ≠ []) ∧
      (chunkSession ops).out = (cs.map encodeChunk).flatten ++ chunkTerminator := by
  unfold chunkSession ChunkWriter.close
  obtain ⟨d₁, hd₁, he₁⟩ := runChunkOps_out_delta ops (ChunkWriter.mk [] [])
  obtain ⟨d₂, hd₂, he₂⟩ := flush_out_delta (runChunkOps (ChunkWriter.mk [] []) ops)
  obtain ⟨cs₁, hcs₁, ecs₁⟩ := hd₁
  obtain ⟨cs₂, hcs₂, ecs₂⟩ := hd₂
  refine ⟨cs₁ ++ cs₂, ?_, ?_⟩
  · intro c hc
    rcases List.mem_append.mp hc with h | h
    · exact hcs₁ c h
    · exact hcs₂ c h
  · simp only [he₂, he₁, ecs₁, ecs₂]
    simp

/-! ### HTTP identity (fixed Content-Length) response writes -/

/-- Errors the response writer can hand back, standing for the
distinguished `http.ErrContentLength`, `http.ErrBodyNotAllowed` values. -/
inductive HErr
  | contentLength
  | bodyNotAllowed
deriving Repr, DecidableEq

/-- The identity-mode branch of `responseWriter.Write`: its loop sends
`min(len(b), remain)`-byte slices to the connection, decrements the
remaining budget, and fails with the content-length error when bytes are
left over after the budget reached zero.  `wire` is what reached the
connection; the buffered connection write is modelled as accepting every
slice in full. -/
def identWrite (remain : Nat) (wire : List Nat) (b : List Nat) :
    Nat × List Nat × Option HErr :=
  if b.length = 0 then (remain, wire, none)
  else if remain = 0 then (remain, wire, some HErr.contentLength)
  else
    identWrite (remain - min b.length remain) (wire ++ b.take (min b.length remain))
      (b.drop (min b.length remain))
termination_by b.length
decreasing_by
  simp only [List.length_drop]
  omega

/-- All `Write` calls a handler makes for one fixed-length response,
threading `remain` and the wire like `responseWriter` does; the error
returned by each call is recorded. -/
def runIdentWrites (remain : Nat) (wire : List Nat) :
    List (List Nat) → Nat × List Nat × List (Option HErr)
  | [] => (remain, wire, [])
  | b :: bs =>
    let r := identWrite remain wire b
    let s := runIdentWrites r.1 r.2.1 bs
    (s.1, s.2.1, r.2.2 :: s.2.2)

theorem identWrite_spec_aux (n : Nat) :
    ∀ (b : List Nat), b.length ≤ n → ∀ remain wire, identWrite remain wire b
      = (remain - b.length, wire ++ b.take remain,
          if remain < b.length then some HErr.contentLength else none) := by
  induction n using Nat.strong_induction_on with
  | _ n ih =>
    intro b hbn remain wire
    rw [identWrite]
    split
    · next h =>
      have hb : b = [] := List.eq_nil_of_length_eq_zero h
      simp [hb]
    · split
      · next hb h0 =>
        simp [h0, Nat.pos_of_ne_zero hb]
      · next hb h0 =>
        have hbpos : 0 < b.length := Nat.pos_of_ne_zero hb
        have hrpos : 0 < remain := Nat.pos_of_ne_zero h0
        have hmin : 0 < min b.length remain := by omega
        have hlt : (b.drop (min b.length remain)).length < b.length := by
          simp only [List.length_drop]; omega
        rw [ih (b.drop (min b.length remain)).length (by omega)
          (b.drop (min b.length remain)) (le_refl _)]
        refine congrArg₂ _ ?_ (congrArg₂ _ ?_ ?_)
        · simp only [List.length_drop]; omega
        · rw [List.append_assoc, ← List.take_add]
          have hsum : min b.length remain + (remain - min b.length remain) = remain := by omega
          rw [hsum]
        · simp only [List.length_drop]
          rcases lt_or_ge remain b.length with hc | hc
          · rw [if_pos (by omega), if_pos hc]
          · rw [if_neg (by omega), if_neg (by omega)]

theorem identWrite_spec (remain : Nat) (wire b : List Nat) :
    identWrite remain wire b
      = (remain - b.length, wire ++ b.take remain,
          if remain < b.length then some HErr.contentLength else none) :=
  identWrite_spec_aux b.length b (le_refl _) remain wire

theorem runIdentWrites_spec (bs : List (List Nat)) :
    ∀ remain wire,
      (runIdentWrites remain wire bs).2.1 = wire ++ bs.flatten.take remain ∧
      (runIdentWrites remain wire bs).1 = remain - bs.flatten.length ∧
      (some HErr.contentLength ∈ (runIdentWrites remain wire bs).2.2 ↔
        remain < bs.flatten.length) := by
  induction bs with
  | nil =>
    intro remain wire
    refine ⟨by simp [runIdentWrites], by simp [runIdentWrites], ?_⟩
    simp [runIdentWrites]
  | cons b bs ih =>
    intro remain wire
    obtain ⟨ih1, ih2, ih3⟩ := ih (remain - b.length) (wire ++ b.take remain)
    rw [runIdentWrites]
    simp only [identWrite_spec]
    refine ⟨?_, ?_, ?_⟩
    · rw [ih1, List.flatten_cons, List.take_append_eq_append_take, List.append_assoc]
    · rw [ih2, List.flatten_cons, List.length_append]
      omega
    · simp only [List.mem_cons, ih3, List.flatten_cons, List.length_append]
      rcases lt_or_ge remain b.length with hc | hc
      · rw [if_pos hc]
        constructor
        · intro _; omega
        · intro _; exact Or.inl rfl
      · rw [if_neg (by omega)]
        constructor
        · intro h
          rcases h with h | h
          · exact absurd h (by simp)
          · omega
        · intro h
          exact Or.inr (by omega)

/-- C3: in identity (declared Content-Length) mode the response writer
streams body bytes through until exactly `declared` bytes went out in
total across all `Write` calls: the wire carries precisely the first
`declared` bytes of everything written (so never more than `declared`),
and some call returns the distinct content-length error exactly when the
handler attempted to write beyond that budget. -/
theorem identity_content_length_enforced (declared : Nat) (writes : List (List Nat)) :
    (runIdentWrites declared [] writes).2.1 = writes.flatten.take declared ∧
    (runIdentWrites declared [] writes).2.1.length ≤ declared ∧
    (some HErr.contentLength ∈ (runIdentWrites declared [] writes).2.2 ↔
      declared < writes.flatten.length) := by
  obtain ⟨h1, _, h3⟩ := runIdentWrites_spec writes declared []
  refine ⟨by simpa using h1, ?_, h3⟩
  rw [h1]
  simp [List.length_take]

/-! ### HTTP request-header byte cap (connReader) -/

/-- The io-level error the connection reader surfaces: `io.EOF`. -/
inductive IOErr
  | eof
deriving Repr, DecidableEq

/-- Embedding of `connReader`: `stream` is the unread tail of the socket,
`limit` the header byte budget (`-1` disables the cap, as in the source,
hence an `Int`). -/
structure ConnReader where
  stream : List Nat
  limit : Int
deriving Repr, DecidableEq

/-- The request-size clamp of `connReader.Read`: `n1 := len(b)` truncated
to the limit when the limit is positive and smaller. -/
def ConnReader.readLen (c : ConnReader) (k : Nat) : Nat :=
  if 0 < c.limit ∧ c.limit < (k : Int) then c.limit.toNat else k

/-- `connReader.Read` for a request of `k` bytes: a zero limit yields EOF
immediately; a positive limit truncates the request to the budget; bytes
delivered while the original limit was positive are deducted from it.
The underlying `Conn.Read` delivers `min k remaining` bytes and reports
EOF at end of stream. -/
def ConnReader.read (c : ConnReader) (k : Nat) : List Nat × Option IOErr × ConnReader :=
  if c.limit = 0 then ([], some IOErr.eof, c)
  else
    (c.stream.take (c.readLen k),
      if (c.stream.take (c.readLen k)).length = 0 ∧ c.readLen k ≠ 0
      then some IOErr.eof else none,
      ConnReader.mk (c.stream.drop (c.readLen k))
        (if 0 < (c.stream.take (c.readLen k)).length ∧ 0 < c.limit
         then c.limit - (c.stream.take (c.readLen k)).length else c.limit))

/-- Run a sequence of reads of the given sizes against the capped reader,
collecting the delivered chunks. -/
def runConnReads (c : ConnReader) : List Nat → List (List Nat) × ConnReader
  | [] => ([], c)
  | k :: ks =>
    let r := c.read k
    let s := runConnReads r.2.2 ks
    (r.1 :: s.1, s.2)

/-- `Server.ServeConn`'s header budget: `MaxHeaderBytes`, or
`DefaultMaxHeaderBytes = 1048576` when left zero. -/
def effectiveMaxHeaderBytes (maxHeaderBytes : Nat) : Nat :=
  if maxHeaderBytes = 0 then 1048576 else maxHeaderBytes

theorem connRead_step (c : ConnReader) (k : Nat) (h : 0 ≤ c.limit) :
    0 ≤ ((c.read k).2.2).limit ∧
    ((c.read k).1.length : Int) + ((c.read k).2.2).limit = c.limit := by
  unfold ConnReader.read
  split
  · next h0 => exact ⟨h, by simp⟩
  · next h0 =>
    have hpos : 0 < c.limit := lt_of_le_of_ne h (fun hh => h0 hh.symm)
    have hlen : ((c.stream.take (c.readLen k)).length : Int) ≤ c.limit := by
      have htk : (c.stream.take (c.readLen k)).length = min (c.readLen k) c.stream.length :=
        List.length_take (c.readLen k) c.stream
      unfold ConnReader.readLen at htk ⊢
      rcases Classical.em (0 < c.limit ∧ c.limit < (k : Int)) with hk | hk
      · rw [if_pos hk] at htk ⊢
        omega
      · rw [if_neg hk] at htk ⊢
        have hk2 : (k : Int) ≤ c.limit := by
          rcases not_and_or.mp hk with h1 | h1
          · exact absurd hpos h1
          · omega
        omega
    constructor
    · show 0 ≤ (if 0 < (c.stream.take (c.readLen k)).length ∧ 0 < c.limit
          then c.limit - (c.stream.take (c.readLen k)).length else c.limit)
      split
      · omega
      · exact h
    · show ((c.stream.take (c.readLen k)).length : Int)
          + (if 0 < (c.stream.take (c.readLen k)).length ∧ 0 < c.limit
             then c.limit - (c.stream.take (c.readLen k)).length else c.limit) = c.limit
      split
      · omega
      · next hc =>
        have hz : (c.stream.take (c.readLen k)).length = 0 := by
          rcases Nat.eq_zero_or_pos (c.stream.take (c.readLen k)).length with hz | hz
          · exact hz
          · exact absurd ⟨hz, hpos⟩ hc
        omega

theorem connReads_total (ks : List Nat) :
    ∀ c : ConnReader, 0 ≤ c.limit →
      0 ≤ (runConnReads c ks).2.limit ∧
      ((runConnReads c ks).1.flatten.length : Int) + ((runConnReads c ks).2.limit)
        = c.limit := by
  induction ks with
  | nil => intro c h; exact ⟨h, by simp [runConnReads]⟩
  | cons k ks ih =>
    intro c h
    obtain ⟨s1, s2⟩ := connRead_step c k h
    obtain ⟨ih1, ih2⟩ := ih ((c.read k).2.2) s1
    rw [runConnReads]
    refine ⟨ih1, ?_⟩
    simp only [List.flatten_cons, List.length_append]
    push_cast
    omega

/-- C4: with the header cap installed at `m` bytes (`readRequest` sets
`conn.c.limit = maxHeaderBytes`), the total number of bytes the limited
reader delivers to the parser over any sequence of reads never exceeds
`m`; a reader whose budget is exhausted (limit zero) answers every read
with EOF and no bytes, so an oversized header starves the parse; and the
default budget is 1048576 bytes. -/
theorem header_cap_bounds_bytes (m : Nat) (stream : List Nat) (ks : List Nat) :
    (runConnReads (ConnReader.mk stream (m : Int)) ks).1.flatten.length ≤ m ∧
    (∀ (s : List Nat) (k : Nat),
      (ConnReader.mk s 0).read k = ([], some IOErr.eof, ConnReader.mk s 0)) ∧
    effectiveMaxHeaderBytes 0 = 1048576 := by
  refine ⟨?_, ?_, rfl⟩
  · obtain ⟨h1, h2⟩ := connReads_total ks (ConnReader.mk stream (m : Int)) (by positivity)
    have h3 : ((runConnReads (ConnReader.mk stream (m : Int)) ks).1.flatten.length : Int)
        + ((runConnReads (ConnReader.mk stream (m : Int)) ks).2.limit) = (m : Int) := h2
    omega
  · intro s k
    rfl

/-! ### Connection server accept loop (Server.Serve) -/

/-- The backoff (in milliseconds) the accept loop sleeps after the
`attempt`-th consecutive temporary error:
`time.Duration(attempt*attempt) * 10 * time.Millisecond`, capped at
`maxBackoff = 1 * time.Second`. -/
def acceptBackoff (attempt : Nat) : Nat :=
  if attempt * attempt * 10 > 1000 then 1000 else attempt * attempt * 10

/-- What `lstn.Accept()` produced on one call. -/
inductive AcceptResult
  | tempErr
  | fatalErr
  | conn (id : Nat)
deriving Repr, DecidableEq

/-- An observable action of `Server.Serve`: sleeping before a retry,
dispatching an accepted connection to a handler goroutine
(`join.Add(1); go s.serve(...)`), or returning on a fatal error. -/
inductive ServeStep
  | backoff (ms : Nat)
  | dispatch (id : Nat)
  | fatal
deriving Repr, DecidableEq

/-- `Server.Serve`'s loop over the listener's successive accept results:
the inner loop counts attempts from 0 and sleeps `acceptBackoff attempt`
after each temporary error; a successful accept breaks out, is dispatched
to a handler goroutine and restarts the inner loop at attempt 0; a
non-temporary error ends the loop. -/
def serveLoop : List AcceptResult → Nat → List ServeStep
  | [], _ => []
  | AcceptResult.tempErr :: rest, attempt =>
    ServeStep.backoff (acceptBackoff attempt) :: serveLoop rest (attempt + 1)
  | AcceptResult.fatalErr :: _, _ => [ServeStep.fatal]
  | AcceptResult.conn id :: rest, _ => ServeStep.dispatch id :: serveLoop rest 0

theorem acceptBackoff_eq_min (a : Nat) : acceptBackoff a = min 1000 (a * a * 10) := by
  unfold acceptBackoff
  rcases le_or_lt (a * a * 10) 1000 with h | h
  · rw [if_neg (by omega), min_eq_right h]
  · rw [if_pos h, min_eq_left (by omega)]

theorem serveLoop_temp_run (id : Nat) (rest : List AcceptResult) :
    ∀ (n start : Nat),
      serveLoop (List.replicate n AcceptResult.tempErr ++ AcceptResult.conn id :: rest) start
        = ((List.range' start n).map fun a => ServeStep.backoff (min 1000 (a * a * 10)))
            ++ ServeStep.dispatch id :: serveLoop rest 0 := by
  intro n
  induction n with
  | zero => intro start; simp [serveLoop]
  | succ n ih =>
    intro start
    rw [List.replicate_succ, List.cons_append, serveLoop, ih (start + 1), List.range'_succ]
    simp [acceptBackoff_eq_min]

/-- C5: in `Server.Serve`'s accept loop, the backoff after the `a`-th
consecutive temporary accept error (attempts counted from 0) is exactly
`min(1 s, a² × 10 ms)`; hence after `n` consecutive temporary errors the
observed schedule is that map over `0..n-1` - in particular 0, 10 ms,
40 ms, 90 ms, 160 ms for the first five retries - the backoff never
exceeds 1 s, and the next successful accept is dispatched to a handler
goroutine. -/
theorem accept_backoff_schedule (n id : Nat) (rest : List AcceptResult) :
    serveLoop (List.replicate n AcceptResult.tempErr ++ AcceptResult.conn id :: rest) 0
      = ((List.range n).map fun a => ServeStep.backoff (min 1000 (a * a * 10)))
          ++ ServeStep.dispatch id :: serveLoop rest 0 ∧
    (∀ a : Nat, acceptBackoff a ≤ 1000) ∧
    (List.range 5).map acceptBackoff = [0, 10, 40, 90, 160] := by
  refine ⟨?_, ?_, by decide⟩
  · rw [serveLoop_temp_run id rest n 0, List.range_eq_range']
  · intro a
    rw [acceptBackoff_eq_min]
    omega

/-! ### HTTP response writer header/status machinery (responseWriter) -/

/-- Embedding of the first `responseWriter` revision's per-request state.
`contentLength` models the presence of a `Content-Length` entry in the
response header map (always a valid number here, so the bad-parse branch
of `WriteHeader` cannot fire); `statusLines` records the status codes of
the status lines put on the wire; `wire` the identity-mode body bytes;
`cw` the embedded chunk writer (its `w`/`n` fields reduce to clearing
`buf`).  The connection itself never fails in this model. -/
structure RespWriter where
  status : Nat
  contentLength : Option Nat
  hasBody : Bool
  chunked : Bool
  remain : Nat
  err : Option HErr
  statusLines : List Nat
  cw : ChunkWriter
  wire : List Nat
deriving Repr, DecidableEq

/-- A fresh writer for a request, with `contentLength` standing for the
header the handler may have set before the first write. -/
def respWriterInit (cl : Option Nat) : RespWriter :=
  RespWriter.mk 0 cl false false 0 none [] (ChunkWriter.mk [] []) []

/-- `responseWriter.WriteHeader`: a second call is a no-op; status 0 is
replaced by 200; 1xx/204/304 get no body and lose framing headers; a
missing `Content-Length` selects chunked mode; otherwise the declared
length becomes the identity budget; then the status line goes out. -/
def RespWriter.writeHeader (res : RespWriter) (status : Nat) : RespWriter :=
  if res.status ≠ 0 then res
  else
    let status := if status = 0 then 200 else status
    let hasBody := decide (200 ≤ status) && !(status == 204) && !(status == 304)
    if hasBody then
      match res.contentLength with
      | none =>
        { res with status := status, hasBody := hasBody, chunked := true,
                   cw := ChunkWriter.mk [] res.cw.out,
                   statusLines := res.statusLines ++ [status] }
      | some len =>
        { res with status := status, hasBody := hasBody, remain := len,
                   statusLines := res.statusLines ++ [status] }
    else
      { res with status := status, hasBody := hasBody, contentLength := none,
                 statusLines := res.statusLines ++ [status] }

/-- `responseWriter.Write`: short-circuit on a sticky error, otherwise
write the header implicitly with `WriteHeader(0)`, refuse bodies where
none is allowed, and route the bytes through the chunk writer or the
identity loop.  With a never-failing connection the source leaves
`res.err` nil on both identity exits (the content-length early return
skips the `res.err = err` assignment), so `err` stays `none` here while
the call still returns the error value. -/
def RespWriter.write (res : RespWriter) (b : List Nat) : RespWriter × Option HErr :=
  match res.err with
  | some e => (res, some e)
  | none =>
    let res := res.writeHeader 0
    if res.hasBody = false then (res, some HErr.bodyNotAllowed)
    else if res.chunked then
      ({ res with cw := res.cw.write b, err := none }, none)
    else
      ({ res with remain := (identWrite res.remain res.wire b).1,
                  wire := (identWrite res.remain res.wire b).2.1,
                  err := none },
        (identWrite res.remain res.wire b).2.2)

/-- `responseWriter.Flush`: write the header if needed, flush the chunk
writer in chunked mode, then the buffered connection writer (a no-op
here). -/
def RespWriter.flush (res : RespWriter) : RespWriter :=
  if res.err.isSome then res
  else
    let res := res.writeHeader 0
    if res.err.isSome then res
    else if res.chunked then { res with cw := res.cw.flush }
    else res

/-- `responseWriter.close`: in chunked mode write the header if needed and
emit the terminating chunk. -/
def RespWriter.close (res : RespWriter) : RespWriter :=
  if res.chunked then
    let res := res.writeHeader 0
    if res.err.isSome then res else { res with cw := res.cw.close }
  else res

/-- `responseWriter.reset` (first revision, the one the server loop calls
between pipelined requests): clears `remain`, `hasBody`, `chunked`, the
chunk-writer fields and the request, and replaces the header map with a
copy of the base header (conveyed here by `baseCL`, the base header's
Content-Length, which `ServeConn`'s base header never sets).  The
`status` and `err` fields are not assigned by the source. -/
def RespWriter.reset (res : RespWriter) (baseCL : Option Nat) : RespWriter :=
  { res with remain := 0, hasBody := false, chunked := false,
             cw := ChunkWriter.mk [] res.cw.out,
             contentLength := baseCL }

/-- C6 (code bug): `responseWriter.reset` does not clear the previously
written status, so after a first 200 response on a keep-alive connection
the writer still carries `status = 200`; `WriteHeader` for the next
pipelined request then returns immediately and no fresh status line is
emitted for the second response - against the claim (and the spec's
mandated full reset).  Concretely: serve a request whose handler wrote a
body (one status line, code 200, goes out), reset, then write the next
response's header: the wire still carries exactly one status line. -/
theorem reset_keeps_previous_status :
    (((respWriterInit none).write [72]).1.statusLines = [200]) ∧
    ((((respWriterInit none).write [72]).1.reset none).status = 200) ∧
    (((((respWriterInit none).write [72]).1.reset none).writeHeader 200).statusLines
      = [200]) := by
  exact ⟨rfl, rfl, rfl⟩

/-- C10: a handler that calls `Write` or `Flush` without `WriteHeader`
still produces a response whose header carries status 200 OK: the
implicit `WriteHeader(0)` is treated as `WriteHeader(200)` (on any writer
state the two calls coincide), and from a fresh writer either call emits
exactly one status line, with code 200. -/
theorem implicit_writeHeader_200 (cl : Option Nat) (b : List Nat) (st : RespWriter) :
    ((respWriterInit cl).write b).1.status = 200 ∧
    ((respWriterInit cl).write b).1.statusLines = [200] ∧
    ((respWriterInit cl).flush).status = 200 ∧
    ((respWriterInit cl).flush).statusLines = [200] ∧
    st.writeHeader 0 = st.writeHeader 200 := by
  refine ⟨?_, ?_, ?_, ?_, ?_⟩
  · cases cl <;> rfl
  · cases cl <;> rfl
  · cases cl <;> rfl
  · cases cl <;> rfl
  · unfold RespWriter.writeHeader
    by_cases h : st.status ≠ 0
    · rw [if_pos h, if_pos h]
    · rw [if_neg h, if_neg h]
      rfl

/-! ### HTTP readiness polling without an OS file (httpx pollRead) -/

/-- Outcome of the `pollRead` peek loop. -/
inductive PollResult
  | ready (t : Nat)
  | timeoutErr (t : Nat)
  | polling
deriving Repr, DecidableEq

/-- Whether the peer's first byte has arrived by time `t` (milliseconds);
`none` means no data ever arrives. -/
def arrivalBy : Option Nat → Nat → Bool
  | none, _ => false
  | some a, t => a ≤ t

/-- The loop of `httpx.pollRead`, with time in milliseconds and the
context never cancelled.  Each iteration starting at time `t` sets a
1-second read deadline and peeks: data present by `t + 1000` is success;
on the peek timeout the source then returns its synthetic timeout error
when `deadline.After(time.Now())` - that is when the deadline still lies
in the future - and otherwise loops.  `fuel` bounds how many iterations we
observe; `deadline` is `start + timeout` with `start = 0`. -/
def pollReadLoop (deadline : Nat) (arrival : Option Nat) : Nat → Nat → PollResult
  | _, 0 => PollResult.polling
  | t, fuel + 1 =>
    if arrivalBy arrival (t + 1000) then PollResult.ready t
    else if deadline > t + 1000 then PollResult.timeoutErr (t + 1000)
    else pollReadLoop deadline arrival (t + 1000) fuel

/-- `httpx.pollRead` entered at time 0 with the given `timeout`
(`deadline := time.Now().Add(timeout)`). -/
def pollReadGo (timeout : Nat) (arrival : Option Nat) (fuel : Nat) : PollResult :=
  pollReadLoop timeout arrival 0 fuel

/-- C7 (code bug): the deadline test in `pollRead` is inverted.  With
`idle_timeout = 5 s` and no data, the loop returns the synthetic timeout
error at 1 s - long before the timeout elapsed - and does so even when a
byte would have arrived at 3 s; with `idle_timeout = 900 ms` (or 0) it
never times out and polls forever.  The claim - success as soon as a byte
is available, timeout only after `idle_timeout` fully elapsed - holds
only for arrivals inside the first 1-second window. -/
theorem pollRead_times_out_early :
    pollReadGo 5000 none 10 = PollResult.timeoutErr 1000 ∧
    (1000 : Nat) < 5000 ∧
    pollReadGo 5000 (some 3000) 10 = PollResult.timeoutErr 1000 ∧
    pollReadGo 900 none 10 = PollResult.polling ∧
    pollReadGo 0 (some 2500) 10 = PollResult.ready 2000 ∧
    pollReadGo 5000 (some 500) 10 = PollResult.ready 0 := by
  refine ⟨by decide, by decide, by decide, by decide, by decide, by decide⟩

/-! ### Tunnel dialing (Tunnel.ServeProxy) -/

/-- Which dialing function a `Tunnel.ServeProxy` revision ends up calling. -/
inductive DialChoice
  | user
  | defaultDialer
  | nilFunc
deriving Repr, DecidableEq

/-- Dialer selection of the first (and third) revision of
`Tunnel.ServeProxy`: `if dial == nil { dial = default }`. -/
def dialSelect (hasUserDial : Bool) : DialChoice :=
  if hasUserDial then DialChoice.user else DialChoice.defaultDialer

/-- Dialer selection of the second revision of `Tunnel.ServeProxy`:
`if dial != nil { dial = default }`, leaving `dial` nil when no user
function was set. -/
def dialSelectRev2 (hasUserDial : Bool) : DialChoice :=
  if hasUserDial then DialChoice.defaultDialer else DialChoice.nilFunc

/-- Outcome of one `Tunnel.ServeProxy` call. -/
inductive TunnelOutcome
  | handlerInvoked (d : DialChoice)
  | aborted
deriving Repr, DecidableEq

/-- First-revision `Tunnel.ServeProxy`: pick the dialer, dial; on error
panic (handling aborts, the handler is never invoked); otherwise delegate
to the tunnel handler. -/
def tunnelServeProxy (hasUserDial : Bool) (dialFails : Bool) : TunnelOutcome :=
  if dialFails then TunnelOutcome.aborted
  else TunnelOutcome.handlerInvoked (dialSelect hasUserDial)

/-- Second-revision `Tunnel.ServeProxy`: same shape but with the inverted
nil test; calling a nil dial function crashes the handling before any
dial, and a dial error is logged and returns without invoking the
handler. -/
def tunnelServeProxyRev2 (hasUserDial : Bool) (dialFails : Bool) : TunnelOutcome :=
  if dialSelectRev2 hasUserDial = DialChoice.nilFunc then TunnelOutcome.aborted
  else if dialFails then TunnelOutcome.aborted
  else TunnelOutcome.handlerInvoked (dialSelectRev2 hasUserDial)

/-- C8 (code bug): the second revision of `Tunnel.ServeProxy` inverts the
nil test on `DialContext` (`if dial != nil { dial = default }`).  A tunnel
configured with a user dial function therefore dials with the default
dialer instead (never the user function), and a tunnel without one
crashes on a nil call instead of using the default.  The first revision
matches the claim (user function when set, default one otherwise), and in
both revisions a failed dial means the tunnel handler is never invoked. -/
theorem tunnel_dial_selection_inverted (u : Bool) :
    dialSelectRev2 true = DialChoice.defaultDialer ∧
    dialSelectRev2 false = DialChoice.nilFunc ∧
    dialSelect true = DialChoice.user ∧
    dialSelect false = DialChoice.defaultDialer ∧
    tunnelServeProxy u true = TunnelOutcome.aborted ∧
    tunnelServeProxyRev2 u true = TunnelOutcome.aborted := by
  refine ⟨rfl, rfl, rfl, rfl, by cases u <;> rfl, by cases u <;> rfl⟩

/-! ### fd:// listener address validation (listen / resolveListen) -/

/-- Accumulate decimal digits; any non-digit character fails the parse. -/
def parseDigitsAux : List Char → Nat → Option Nat
  | [], acc => some acc
  | c :: cs, acc =>
    if c.isDigit then parseDigitsAux cs (acc * 10 + (c.toNat - 48))
    else none

/-- Embedding of Go `strconv.Atoi`: an optional single sign followed by at
least one decimal digit, nothing else, and the value must fit the 64-bit
`int` (`Atoi` reports `ErrRange` outside −2⁶³ … 2⁶³−1, which `listen`
treats like any other parse failure). -/
def goAtoi (s : String) : Option Int :=
  match s.toList with
  | [] => none
  | '+' :: cs =>
    if cs.isEmpty then none
    else (parseDigitsAux cs 0).bind fun n =>
      if n < 9223372036854775808 then some (Int.ofNat n) else none
  | '-' :: cs =>
    if cs.isEmpty then none
    else (parseDigitsAux cs 0).bind fun n =>
      if n ≤ 9223372036854775808 then some (-(n : Int)) else none
  | cs =>
    (parseDigitsAux cs 0).bind fun n =>
      if n < 9223372036854775808 then some (Int.ofNat n) else none

/-- Result of resolving an `fd://<address>` listen string through
`resolveListen` (which rejects non-integers) and `listen` (which
re-parses and additionally rejects negatives before adopting the
descriptor). -/
inductive FdResolve
  | errNotInteger
  | errNegative
  | adoptFd (n : Int)
deriving Repr, DecidableEq

/-- The `network == "fd"` path of `Listen`: `resolveListen` fails unless
`strconv.Atoi` accepts the address; `listen` then fails on `fd < 0` and
otherwise proceeds to adopt the descriptor (`os.NewFile`/`net.FileConn`). -/
def listenFd (address : String) : FdResolve :=
  match goAtoi address with
  | none => FdResolve.errNotInteger
  | some n => if n < 0 then FdResolve.errNegative else FdResolve.adoptFd n

/-- An `fd://N` numeral beyond the 64-bit int range fails `strconv.Atoi`
with a range error, so `Listen` rejects it as an invalid descriptor. -/
theorem listenFd_overflow_rejected :
    listenFd "9223372036854775808" = FdResolve.errNotInteger ∧
    listenFd "9223372036854775807" = FdResolve.adoptFd 9223372036854775807 := by
  refine ⟨by decide, by decide⟩

/-- C9 counterexample: `fd://0` - where 0 is not a positive integer -
passes both validation layers and proceeds to adopt descriptor 0, so the
claim that every non-positive `N` makes `Listen` return an error is false
at this input. -/
theorem fd_zero_passes_validation :
    listenFd "0" = FdResolve.adoptFd 0 ∧ ¬ (0 : Int) > 0 := by
  refine ⟨by decide, by decide⟩

/-- C9 (amended): resolving an `fd://N` listener address reaches the
descriptor-adoption step exactly when `N` parses as a nonnegative decimal
integer; any address that is not an integer at all, or is negative, is
rejected with an error before a listener is constructed. -/
theorem fd_listen_validation_nonnegative (s : String) (n : Int) :
    listenFd s = FdResolve.adoptFd n ↔ (goAtoi s = some n ∧ 0 ≤ n) := by
  cases h : goAtoi s with
  | none =>
    have hred : listenFd s = FdResolve.errNotInteger := by
      unfold listenFd
      rw [h]
    rw [hred]
    simp
  | some m =>
    have hred : listenFd s = if m < 0 then FdResolve.errNegative else FdResolve.adoptFd m := by
      unfold listenFd
      rw [h]
    rw [hred]
    rcases lt_or_ge m 0 with hm | hm
    · rw [if_pos hm]
      constructor
      · intro hc
        exact absurd hc (by simp)
      · intro hc
        have hmn := Option.some.inj hc.1
        exact absurd hc.2 (by omega)
    · rw [if_neg (by omega)]
      constructor
      · intro hc
        have hmn : m = n := by simpa using hc
        exact ⟨by rw [hmn], by omega⟩
      · intro hc
        rw [Option.some.inj hc.1]
